import Mathlib

/-!
Shallow embedding of `src/common/protocol.go` (package `common`): the packet
registry, the `Message` codec (`MarshalBinary` and the reader loop's decode
procedure inside `MessageChannel`), and the teardown behaviour of the duplex
pump's two goroutines.

Bytes are modelled as `Nat` (wellformedness `< 256` is carried as a hypothesis
where it matters). A `net.Conn`'s read side is modelled as a byte stream plus a
schedule of per-call outcomes: Go's `Read(buf)` contract lets a call return
`n < len(buf)` bytes with a nil error, and the Go code never inspects `n`, so
the model hands back the whole zero-initialised buffer with only a prefix
filled, exactly as the Go code then uses it.
-/

namespace Common

/-- UidLength is the length of the UID that the puncher server issues. -/
def UidLength : Nat := 16

/-- Packet constants from the const block of protocol.go. -/
def ClientType : Nat := 0x00

def UidAssignment : Nat := 0x01

def UidRequest : Nat := 0x02

def PeerNotFound : Nat := 0x03

def UploaderReady : Nat := 0x04

def FileName : Nat := 0x05

def FileSize : Nat := 0x06

def FileHash : Nat := 0x07

def Verification : Nat := 0x08

def ProtocolError : Nat := 0x09

def InternalError : Nat := 0x0A

def Halt : Nat := 0x0B

/-- bodilessPackets is the set of all Packets that do not have a body. -/
def bodilessPackets : List Nat := [PeerNotFound, UploaderReady]

/-- isBodiless loops over bodilessPackets looking for the given packet. -/
def isBodiless (p : Nat) : Bool := bodilessPackets.any (fun v => v == p)

/-- fixedLengthPackets is the map of all Packets that have a fixed length
body, as an Option-valued lookup. -/
def fixedLengthPackets (p : Nat) : Option Nat :=
  if p = ClientType then some 1
  else if p = UidAssignment then some UidLength
  else if p = UidRequest then some UidLength
  else if p = FileSize then some 8
  else if p = FileHash then some 32
  else if p = Verification then some 1
  else none

/-- Message is a message from one endpoint to another with a packet and body.
A nil Go body is modelled as the empty list. -/
structure Message where
  Packet : Nat
  Body : List Nat
  deriving DecidableEq

/-- NewMesssageWithByte builds a Message with a one-byte body, exactly as the
Go function does: no validation, no error path. -/
def NewMesssageWithByte (packet : Nat) (body : Nat) : Message :=
  ⟨packet, [body]⟩

/-- MarshalBinary from protocol.go: kind byte; for non-bodiless packets a
length byte is emitted only when the packet is not fixed-length, after
checking the body fits in one byte; then the body bytes. On the oversize
check failing, Go returns (nil, err): no partial output. -/
def MarshalBinary (m : Message) : Except String (List Nat) :=
  if isBodiless m.Packet then
    Except.ok [m.Packet]
  else
    match fixedLengthPackets m.Packet with
    | some _ => Except.ok (m.Packet :: m.Body)
    | none =>
        if m.Body.length > 0xFF then
          Except.error "length of body cannot fit in 1 byte"
        else
          Except.ok (m.Packet :: m.Body.length :: m.Body)

/-- Conn models the read side of a net.Conn: the bytes the transport will
deliver, in order, and a schedule of per-Read-call outcomes (`none` is a
transport error, `some n` delivers up to n bytes of the stream). -/
structure Conn where
  stream : List Nat
  sched : List (Option Nat)
  deriving DecidableEq

/-- connRead models `buf := make([]byte, k); conn.Read(buf)` followed by the
Go code using the whole buffer: the next scheduled outcome either errors, or
fills a prefix of the zero-initialised k-byte buffer with the next
min(n, k, available) stream bytes. An exhausted schedule reads as an error. -/
def connRead (k : Nat) (c : Conn) : Option (List Nat × Conn) :=
  match c.sched with
  | [] => none
  | none :: _ => none
  | some n :: rest =>
      let filled := min n (min k c.stream.length)
      some (c.stream.take filled ++ List.replicate (k - filled) 0,
            ⟨c.stream.drop filled, rest⟩)

/-- decodeOne is one iteration of the reader loop of MessageChannel:
read 1 kind byte; bodiless packets produce a bodiless Message at once;
otherwise the body length comes from fixedLengthPackets or, when unknown,
from one further length byte; then the body bytes are read. Any read error
aborts with no Message produced. -/
def decodeOne (c : Conn) : Option (Message × Conn) :=
  match connRead 1 c with
  | none => none
  | some (packetBuff, c1) =>
      let packet := packetBuff.headD 0
      if isBodiless packet then
        some (⟨packet, []⟩, c1)
      else
        let lenStep : Option (Nat × Conn) :=
          match fixedLengthPackets packet with
          | some l => some (l, c1)
          | none =>
              match connRead 1 c1 with
              | none => none
              | some (lenBuff, c2) => some (lenBuff.headD 0, c2)
        match lenStep with
        | none => none
        | some (len, c2) =>
            match connRead len c2 with
            | none => none
            | some (bodyBuff, c3) => some (⟨packet, bodyBuff⟩, c3)

/-- readerRun is the reader loop run for at most `fuel` iterations: the list
of Messages delivered to the inbound channel before the loop stops on a read
error. -/
def readerRun : Nat → Conn → List Message
  | 0, _ => []
  | fuel + 1, c =>
      match decodeOne c with
      | none => []
      | some (m, c') => m :: readerRun fuel c'

/-- writerRun is the writer loop of MessageChannel consuming the FIFO
outbound queue contents in order: each Message is marshalled and its bytes
written to the Conn; a marshal error stops the loop with nothing written for
that message. Returns the concatenated bytes passed to conn.Write. -/
def writerRun : List Message → List Nat
  | [] => []
  | m :: rest =>
      match MarshalBinary m with
      | Except.error _ => []
      | Except.ok data => data ++ writerRun rest

/-- framingOk is the framing policy of a kind applied to a message: bodiless
kinds carry no body, fixed kinds carry exactly the registered length,
variable kinds carry at most 255 bytes. -/
def framingOk (m : Message) : Bool :=
  if isBodiless m.Packet then
    m.Body.isEmpty
  else
    match fixedLengthPackets m.Packet with
    | some n => m.Body.length == n
    | none => decide (m.Body.length ≤ 255)

/-- fullConn supplies a stream with a schedule generous enough that every
read of the (at most three) reads of one frame is filled completely. -/
def fullConn (s : List Nat) : Conn :=
  ⟨s, [some 100000, some 100000, some 100000]⟩

/-- CloseState tracks the closed flags of the pump's two channels and whether
a runtime panic has occurred. -/
structure CloseState where
  inClosed : Bool
  outClosed : Bool
  panicked : Bool
  deriving DecidableEq

/-- closeIn models Go's `close(in)`: closing an already-closed channel is a
runtime panic. -/
def closeIn (s : CloseState) : CloseState :=
  if s.inClosed then { s with panicked := true } else { s with inClosed := true }

/-- closeOut models Go's `close(out)`. -/
def closeOut (s : CloseState) : CloseState :=
  if s.outClosed then { s with panicked := true } else { s with outClosed := true }

/-- Both pump goroutines register `defer close(in)` then `defer close(out)`;
deferred calls run in LIFO order, so an exiting goroutine runs close(out)
then close(in). -/
def goroutineExitCloses (s : CloseState) : CloseState :=
  closeIn (closeOut s)

/-- pumpStart is the state right after MessageChannel creates both channels:
neither closed, no panic. -/
def pumpStart : CloseState := ⟨false, false, false⟩

/-- zeroMessage is the Go zero value of Message (Packet 0 = ClientType, nil
body): what `<-out` yields once `out` is closed. -/
def zeroMessage : Message := ⟨0, []⟩

/-- writerRunAfterClose: after `out` is closed, each surviving writer-loop
iteration receives zeroMessage from the closed channel, marshals it, and
writes the bytes; these are the bytes written over k further iterations
while the Conn's write side still accepts data. -/
def writerRunAfterClose : Nat → List Nat
  | 0 => []
  | k + 1 =>
      match MarshalBinary zeroMessage with
      | Except.error _ => []
      | Except.ok data => data ++ writerRunAfterClose k

/-- SendOutcome of a Go channel send: delivered, or a runtime panic when the
channel is already closed. -/
inductive SendOutcome where
  | delivered
  | panicked
  deriving DecidableEq

/-- chanSend models Go's send on a channel with the given closed flag. -/
def chanSend (closed : Bool) : SendOutcome :=
  if closed then SendOutcome.panicked else SendOutcome.delivered

/-- A read whose schedule entry and stream both cover the request is filled
completely. -/
theorem connRead_full (k n : Nat) (s : List Nat) (sch : List (Option Nat))
    (hk : k ≤ s.length) (hn : k ≤ n) :
    connRead k ⟨s, some n :: sch⟩ = some (s.take k, ⟨s.drop k, sch⟩) := by
  have h1 : min k s.length = k := min_eq_left hk
  have h2 : min n (min k s.length) = k := by rw [h1]; exact min_eq_right hn
  simp [connRead, h2]

/-- The buffer a successful read returns always has exactly the allocated
size (Go's make zero-fills whatever the transport did not). -/
theorem connRead_length {k : Nat} {c c' : Conn} {bs : List Nat}
    (h : connRead k c = some (bs, c')) : bs.length = k := by
  rcases c with ⟨s, sch⟩
  match sch with
  | [] => simp [connRead] at h
  | none :: rest => simp [connRead] at h
  | some n :: rest =>
      simp only [connRead, Option.some.injEq, Prod.mk.injEq] at h
      obtain ⟨h1, _⟩ := h
      have hf : min n (min k s.length) ≤ k :=
        le_trans (min_le_right _ _) (min_le_left _ _)
      have hf2 : min n (min k s.length) ≤ s.length :=
        le_trans (min_le_right _ _) (min_le_right _ _)
      subst h1
      simp [List.length_take]

/-- Every byte of a returned buffer is a stream byte or a zero fill byte. -/
theorem connRead_mem {k : Nat} {c c' : Conn} {bs : List Nat}
    (h : connRead k c = some (bs, c')) :
    ∀ b ∈ bs, b ∈ c.stream ∨ b = 0 := by
  rcases c with ⟨s, sch⟩
  match sch with
  | [] => simp [connRead] at h
  | none :: rest => simp [connRead] at h
  | some n :: rest =>
      simp only [connRead, Option.some.injEq, Prod.mk.injEq] at h
      obtain ⟨h1, _⟩ := h
      subst h1
      intro b hmem
      rcases List.mem_append.mp hmem with hmem | hmem
      · exact Or.inl (List.take_subset _ _ hmem)
      · exact Or.inr (List.eq_of_mem_replicate hmem)

/-- A successful read leaves a suffix of the stream. -/
theorem connRead_stream {k : Nat} {c c' : Conn} {bs : List Nat}
    (h : connRead k c = some (bs, c')) :
    ∀ b ∈ c'.stream, b ∈ c.stream := by
  rcases c with ⟨s, sch⟩
  match sch with
  | [] => simp [connRead] at h
  | none :: rest => simp [connRead] at h
  | some n :: rest =>
      simp only [connRead, Option.some.injEq, Prod.mk.injEq] at h
      obtain ⟨_, h2⟩ := h
      subst h2
      intro b hmem
      exact List.drop_subset _ _ hmem


theorem decodeOne_stream {c c' : Conn} {m : Message}
    (h : decodeOne c = some (m, c')) : ∀ b ∈ c'.stream, b ∈ c.stream := by
  unfold decodeOne at h
  split at h
  · exact absurd h (by simp)
  next packetBuff c1 h1 =>
    by_cases hb : isBodiless (packetBuff.headD 0)
    · simp only [hb, if_pos, Option.some.injEq, Prod.mk.injEq] at h
      obtain ⟨_, h2⟩ := h
      subst h2
      exact connRead_stream h1
    · rw [if_neg hb] at h
      cases hf : fixedLengthPackets (packetBuff.headD 0) with
      | some l =>
          rw [hf] at h
          simp only at h
          match h2 : connRead l c1 with
          | none => rw [h2] at h; simp at h
          | some (bodyBuff, c3) =>
              rw [h2] at h
              simp only [Option.some.injEq, Prod.mk.injEq] at h
              obtain ⟨_, h3⟩ := h
              subst h3
              intro b hbm
              exact connRead_stream h1 _ (connRead_stream h2 _ hbm)
      | none =>
          rw [hf] at h
          simp only at h
          match h2 : connRead 1 c1 with
          | none => rw [h2] at h; simp at h
          | some (lenBuff, c2) =>
              rw [h2] at h
              simp only at h
              match h3 : connRead (lenBuff.headD 0) c2 with
              | none => rw [h3] at h; simp at h
              | some (bodyBuff, c3) =>
                  rw [h3] at h
                  simp only [Option.some.injEq, Prod.mk.injEq] at h
                  obtain ⟨_, h4⟩ := h
                  subst h4
                  intro b hbm
                  exact connRead_stream h1 _ (connRead_stream h2 _ (connRead_stream h3 _ hbm))


theorem decodeOne_framing {c c' : Conn} {m : Message}
    (hbytes : ∀ b ∈ c.stream, b < 256)
    (h : decodeOne c = some (m, c')) : framingOk m = true := by
  unfold decodeOne at h
  split at h
  · exact absurd h (by simp)
  next packetBuff c1 h1 =>
    set p := packetBuff.headD 0 with hp
    by_cases hb : isBodiless p
    · simp only [hb, if_pos, Option.some.injEq, Prod.mk.injEq] at h
      obtain ⟨h2, _⟩ := h
      subst h2
      simp [framingOk, hb]
    · rw [if_neg hb] at h
      cases hf : fixedLengthPackets p with
      | some l =>
          rw [hf] at h
          simp only at h
          match h2 : connRead l c1 with
          | none => rw [h2] at h; simp at h
          | some (bodyBuff, c3) =>
              rw [h2] at h
              simp only [Option.some.injEq, Prod.mk.injEq] at h
              obtain ⟨h3, _⟩ := h
              subst h3
              have hlen := connRead_length h2
              simp [framingOk, hb, hf, hlen]
      | none =>
          rw [hf] at h
          simp only at h
          match h2 : connRead 1 c1 with
          | none => rw [h2] at h; simp at h
          | some (lenBuff, c2) =>
              rw [h2] at h
              simp only at h
              match h3 : connRead (lenBuff.headD 0) c2 with
              | none => rw [h3] at h; simp at h
              | some (bodyBuff, c3) =>
                  rw [h3] at h
                  simp only [Option.some.injEq, Prod.mk.injEq] at h
                  obtain ⟨h4, _⟩ := h
                  subst h4
                  have hlen := connRead_length h3
                  have hl1 : lenBuff.length = 1 := connRead_length h2
                  obtain ⟨a, ha⟩ := List.length_eq_one.mp hl1
                  subst ha
                  have ha2 : a ∈ c1.stream ∨ a = 0 := connRead_mem h2 a (by simp)
                  have ha3 : a < 256 := by
                    rcases ha2 with h5 | h5
                    · exact hbytes a (connRead_stream h1 a h5)
                    · omega
                  simp only [List.headD_cons] at hlen
                  simp [framingOk, hb, hf, hlen]
                  omega



/-- Claim C1: every Message whose kind and body satisfy the kind's framing
policy survives a MarshalBinary encode followed by the reader loop's decode
(with fully delivered reads) with kind and body bytes unchanged. -/
theorem C1_encode_decode_roundtrip (m : Message) (hval : framingOk m = true) :
    ∃ bytes c', MarshalBinary m = Except.ok bytes ∧
      decodeOne (fullConn bytes) = some (m, c') := by
  obtain ⟨p, body⟩ := m
  by_cases hb : isBodiless p
  · have hbody : body = [] := by
      simpa [framingOk, hb] using hval
    subst hbody
    refine ⟨[p], ⟨[], [some 100000, some 100000]⟩, by simp [MarshalBinary, hb], ?_⟩
    have hr := connRead_full 1 100000 [p] [some 100000, some 100000] (by simp) (by omega)
    simp [decodeOne, fullConn, hr, hb]
  · cases hf : fixedLengthPackets p with
    | some n =>
        have hlen : body.length = n := by
          simpa [framingOk, hb, hf] using hval
        have hn32 : n ≤ 32 := by
          unfold fixedLengthPackets at hf
          repeat' split at hf
          all_goals try simp_all [UidLength]
          all_goals omega
        have ht : body.take n = body := by rw [← hlen]; exact List.take_length body
        have hd : body.drop n = [] := by rw [← hlen]; exact List.drop_length body
        refine ⟨p :: body, ⟨[], [some 100000]⟩, by simp [MarshalBinary, hb, hf], ?_⟩
        have hr1 := connRead_full 1 100000 (p :: body) [some 100000, some 100000]
          (by simp) (by omega)
        have hr2 := connRead_full n 100000 body [some 100000] hlen.ge (by omega)
        simp [decodeOne, fullConn, hr1, hb, hf, hr2, ht, hd]
    | none =>
        have hlen : body.length ≤ 255 := by
          simpa [framingOk, hb, hf] using hval
        have hnotover : ¬ (body.length > 0xFF) := by omega
        have ht : body.take body.length = body := List.take_length body
        have hd : body.drop body.length = [] := List.drop_length body
        refine ⟨p :: body.length :: body, ⟨[], []⟩,
          by simp [MarshalBinary, hb, hf, hnotover], ?_⟩
        have hr1 := connRead_full 1 100000 (p :: body.length :: body)
          [some 100000, some 100000] (by simp) (by omega)
        have hr2 := connRead_full 1 100000 (body.length :: body) [some 100000]
          (by simp) (by omega)
        have hr3 := connRead_full body.length 100000 body [] (le_refl _) (by omega)
        simp [decodeOne, fullConn, hr1, hb, hf, hr2, hr3, ht, hd]

/-- Witness for C1 at the concrete FileName message with body "a". -/
theorem C1_roundtrip_witness :
    framingOk ⟨FileName, [97]⟩ = true ∧
    ∃ bytes c', MarshalBinary ⟨FileName, [97]⟩ = Except.ok bytes ∧
      decodeOne (fullConn bytes) = some (⟨FileName, [97]⟩, c') :=
  ⟨by decide, C1_encode_decode_roundtrip ⟨FileName, [97]⟩ (by decide)⟩



/-- Claim C2: the claim that both queues are closed exactly once whichever
loop fails first is violated by the code. Both goroutines of MessageChannel
defer close(in) and close(out); the first to exit closes both channels, and
the second to exit then closes two already-closed channels, a Go runtime
panic, instead of a second close being skipped. -/
theorem C2_double_close_panics :
    goroutineExitCloses pumpStart = ⟨true, true, false⟩ ∧
    (goroutineExitCloses (goroutineExitCloses pumpStart)).panicked = true := by
  decide

/-- Claim C3: after teardown closes both queues, the pump is not quiescent:
a send on the closed outbound channel is a runtime panic rather than a
rejected or ignored enqueue, and a writer loop that survives (because the
write side of the Conn still works) drains zero-valued Messages from the
closed channel and keeps writing their 1-byte encodings 0x00 to the Conn. -/
theorem C3_teardown_not_quiescent :
    chanSend true = SendOutcome.panicked ∧
    writerRunAfterClose 3 = [0, 0, 0] := by
  decide

/-- Claim C4, counterexample: constructing a FileHash message with a 1-byte
(hence not 32-byte) body via NewMesssageWithByte succeeds and returns the
message unvalidated; there is no ConstructionError path. -/
theorem C4_filehash_construction_succeeds :
    NewMesssageWithByte FileHash 0 = ⟨FileHash, [0]⟩ ∧
    (NewMesssageWithByte FileHash 0).Body.length ≠ 32 := by
  decide

/-- Claim C4 as amended: the only Message constructor, NewMesssageWithByte,
performs no validation and cannot fail: it always returns a message with the
given kind and the single given body byte, so every FileHash message it
builds violates the 32-byte framing policy. -/
theorem C4_no_validation_at_construction :
    (∀ p b : Nat, NewMesssageWithByte p b = ⟨p, [b]⟩) ∧
    (∀ b : Nat, framingOk (NewMesssageWithByte FileHash b) = false) := by
  exact ⟨fun p b => rfl, fun b => rfl⟩

set_option maxRecDepth 10000

/-- Claim C5: MarshalBinary fails exactly when the packet is neither
bodiless nor fixed-length and the body exceeds 255 bytes, returning an error
and no partial bytes; and a Halt message with a 255-byte body encodes to the
kind byte 0x0B, the length byte 0xFF, then the body. -/
theorem C5_marshal_error_iff_oversized_variable :
    (∀ m : Message, (∃ e, MarshalBinary m = Except.error e) ↔
      (isBodiless m.Packet = false ∧ fixedLengthPackets m.Packet = none ∧
        m.Body.length > 255)) ∧
    (∀ body : List Nat, body.length = 255 →
      MarshalBinary ⟨Halt, body⟩ = Except.ok (Halt :: 255 :: body)) := by
  constructor
  · intro m
    constructor
    · rintro ⟨e, he⟩
      unfold MarshalBinary at he
      by_cases hb : isBodiless m.Packet
      · simp [hb] at he
      · cases hf : fixedLengthPackets m.Packet with
        | some n => rw [if_neg hb, hf] at he; simp at he
        | none =>
            rw [if_neg hb, hf] at he
            by_cases hl : m.Body.length > 255
            · exact ⟨by simpa using hb, rfl, hl⟩
            · simp [hl] at he
    · rintro ⟨hb, hf, hl⟩
      refine ⟨"length of body cannot fit in 1 byte", ?_⟩
      simp [MarshalBinary, hb, hf, hl]
  · intro body hlen
    have hb : isBodiless Halt = false := by decide
    have hf : fixedLengthPackets Halt = none := by decide
    simp [MarshalBinary, hb, hf, hlen]

/-- Witness for C5: a 255-byte Halt body encodes as claimed; a 256-byte one
fails. -/
theorem C5_marshal_witness :
    MarshalBinary ⟨Halt, List.replicate 255 7⟩ =
      Except.ok (Halt :: 255 :: List.replicate 255 7) ∧
    ∃ e, MarshalBinary ⟨Halt, List.replicate 256 7⟩ = Except.error e :=
  ⟨by
    have h := C5_marshal_error_iff_oversized_variable.2 (List.replicate 255 7) (by simp)
    simpa using h,
   (C5_marshal_error_iff_oversized_variable.1 ⟨Halt, List.replicate 256 7⟩).mpr
     ⟨by decide, by decide, by simp⟩⟩

/-- Claim C6: the claim that any short read aborts the decode with no
Message delivered is violated by the code: the reader checks only the error
of conn.Read, never the byte count, so a read that delivers 2 of 32
requested FileHash body bytes with a nil error yields a delivered Message
whose body is the 2 transported bytes padded with 30 zero fill bytes. -/
theorem C6_short_read_not_detected :
    decodeOne ⟨[FileHash, 171, 205], [some 1, some 2]⟩ =
      some (⟨FileHash, [171, 205] ++ List.replicate 30 0⟩, ⟨[], []⟩) := by
  decide

/-- Claim C7: a kind byte that is neither bodiless nor fixed-length,
including all undeclared values above 0x0B, is decoded as variable-framed:
one length byte L, then exactly L body bytes, giving a Message with that
kind and body. -/
theorem C7_unknown_kind_variable_framed (p L : Nat) (body : List Nat)
    (_hp : p < 256) (hL : L < 256) (hb : isBodiless p = false)
    (hf : fixedLengthPackets p = none) (hlen : body.length = L) :
    decodeOne (fullConn (p :: L :: body)) = some (⟨p, body⟩, ⟨[], []⟩) := by
  have ht : body.take L = body := by rw [← hlen]; exact List.take_length body
  have hd : body.drop L = [] := by rw [← hlen]; exact List.drop_length body
  have hr1 := connRead_full 1 100000 (p :: L :: body) [some 100000, some 100000]
    (by simp) (by omega)
  have hr2 := connRead_full 1 100000 (L :: body) [some 100000] (by simp) (by omega)
  have hr3 := connRead_full L 100000 body [] (by omega) (by omega)
  simp [decodeOne, fullConn, hr1, hb, hf, hr2, hr3, ht, hd]

/-- Witness for C7 at the undeclared kind 0x0C with a 2-byte body. -/
theorem C7_unknown_kind_witness :
    decodeOne (fullConn [12, 2, 9, 8]) = some (⟨12, [9, 8]⟩, ⟨[], []⟩) :=
  C7_unknown_kind_variable_framed 12 2 [9, 8] (by decide) (by decide) (by decide)
    (by decide) (by decide)

/-- Claim C8: a PeerNotFound message always encodes to the single byte 0x03,
and decoding a stream beginning with 0x03 yields a bodiless PeerNotFound
message consuming no bytes beyond the kind byte. -/
theorem C8_peer_not_found_bodiless :
    (∀ body : List Nat, MarshalBinary ⟨PeerNotFound, body⟩ = Except.ok [PeerNotFound]) ∧
    (∀ rest : List Nat, decodeOne (fullConn (PeerNotFound :: rest)) =
      some (⟨PeerNotFound, []⟩, ⟨rest, [some 100000, some 100000]⟩)) := by
  constructor
  · intro body
    rfl
  · intro rest
    have hbl : isBodiless PeerNotFound = true := by decide
    have hr := connRead_full 1 100000 (PeerNotFound :: rest) [some 100000, some 100000]
      (by simp) (by omega)
    simp [decodeOne, fullConn, hr, hbl]

/-- Claim C9: the writer loop consumes the FIFO outbound queue in order, so
the bytes handed to the Connection are the concatenation of the encodings of
the enqueued messages in enqueue order. -/
theorem C9_writer_fifo_concat (msgs : List Message) (ds : List (List Nat))
    (h : msgs.map MarshalBinary = ds.map Except.ok) :
    writerRun msgs = ds.flatten := by
  induction msgs generalizing ds with
  | nil =>
      cases ds with
      | nil => rfl
      | cons d ds' => simp at h
  | cons m rest ih =>
      cases ds with
      | nil => simp at h
      | cons d ds' =>
          simp only [List.map_cons, List.cons.injEq] at h
          obtain ⟨h1, h2⟩ := h
          simp [writerRun, h1, ih ds' h2]

/-- Witness for C9 on two concrete messages. -/
theorem C9_writer_fifo_witness :
    writerRun [⟨ClientType, [1]⟩, ⟨FileName, [97]⟩] = [[0, 1], [5, 1, 97]].flatten :=
  C9_writer_fifo_concat [⟨ClientType, [1]⟩, ⟨FileName, [97]⟩] [[0, 1], [5, 1, 97]] (by rfl)

/-- Claim C10: every Message the reader loop delivers to the inbound queue
satisfies its kind's framing policy: bodiless kinds carry an empty body,
fixed kinds the registered length, and any other kind a body whose length is
the read length byte, hence at most 255. -/
theorem C10_delivered_messages_well_framed (fuel : Nat) (c : Conn)
    (hbytes : ∀ b ∈ c.stream, b < 256) :
    ∀ msg ∈ readerRun fuel c, framingOk msg = true := by
  induction fuel generalizing c with
  | zero => simp [readerRun]
  | succ n ih =>
      intro msg hmem
      unfold readerRun at hmem
      match hd : decodeOne c with
      | none => rw [hd] at hmem; simp at hmem
      | some (m, c') =>
          rw [hd] at hmem
          simp only [List.mem_cons] at hmem
          rcases hmem with rfl | hmem
          · exact decodeOne_framing hbytes hd
          · exact ih c' (fun b hb => hbytes b (decodeOne_stream hd b hb)) msg hmem

/-- Witness for C10: the one message decoded from the byte 0x03 is well
framed. -/
theorem C10_well_framed_witness :
    framingOk ⟨PeerNotFound, []⟩ = true :=
  C10_delivered_messages_well_framed 1 (fullConn [3]) (by decide) ⟨PeerNotFound, []⟩
    (by decide)


end Common
